import Mathlib

/-!
Shallow embedding of the `eventbus` C++ library (headers under
`include/eventbus/`): the error taxonomy (`error.h`), the thread-safe
backpressure queue (`queue.h`), the handler registry and publish paths of
`EventBus` (`bus.h`), and the RAII subscription handle (`subscription.h`).

Modelling conventions:
* C++ event types (`std::type_index`) are modelled as natural-number tags;
  an event value is a tag plus a natural-number payload.
* Blocking condition-variable waits are modelled by a distinguished
  `blocked` outcome: the sequential model reports that the call would not
  return in the current state.
* `std::unordered_map<size_t, Handler>` (the per-type handler map) is
  modelled as a list of `(id, handler)` pairs in the map's iteration
  order.  The C++ standard leaves the iteration order of an unordered
  container unspecified, so insertion takes an extra `pos` argument giving
  the position at which the container happens to place the new node (for
  reference, libstdc++ places a node whose bucket is empty at the head of
  the element list).  Lookup and erasure are by key and are independent of
  `pos`.
-/

/-- Error codes from `error.h` (`enum class ErrorCode`). -/
inductive ErrorCode where
  | Success
  | QueueFull
  | QueueClosed
  | BusShutdown
  | InvalidSubscription
  | SubscriptionExpired
  | DispatcherError
  | HandlerError
  | InvalidEventType
  | Timeout
  | UnknownError
deriving DecidableEq, Repr

/-- Queue capacity policy (`policy.h`): `UnboundedQueue` or `BoundedQueue<N>`. -/
inductive QueuePolicy where
  | UnboundedQueue
  | BoundedQueue (n : Nat)
deriving DecidableEq, Repr

/-- Backpressure policy (`policy.h`): `BlockProducer`, `DropOldest`, `DropNewest`. -/
inductive BackpressurePolicy where
  | BlockProducer
  | DropOldest
  | DropNewest
deriving DecidableEq, Repr

/-- `EventQueue::capacity` (`queue.h` lines 52-58): `numeric_limits<size_t>::max()`
for `UnboundedQueue`, the template parameter for `BoundedQueue<N>`. -/
def QueuePolicy.capacity : QueuePolicy → Nat
  | .UnboundedQueue => 2 ^ 64 - 1
  | .BoundedQueue n => n

/-- State of an `EventQueue<E>` (`queue.h`): the underlying `std::queue`
(`queue_`, head of the list = front of the queue) and the `shutdown_` flag. -/
structure EventQueue (E : Type) where
  queue_ : List E
  shutdown_ : Bool
deriving DecidableEq, Repr

/-- Outcome of `EventQueue::push`: either the call returns (with the new
queue state and an error code), or the producer blocks on the condition
variable (bounded + `BlockProducer`, queue full, no shutdown). -/
inductive PushResult (E : Type) where
  | done (q : EventQueue E) (ec : ErrorCode)
  | blocked
deriving DecidableEq, Repr

/-- Outcome of `EventQueue::pop`: an element (FIFO head) with the new queue
state, the end-of-stream marker `nullopt` (shutdown and empty), or a
blocked consumer (empty, not shut down). -/
inductive PopResult (E : Type) where
  | item (e : E) (q : EventQueue E)
  | eos
  | blocked
deriving DecidableEq, Repr

/-- `EventQueue::push` (`queue.h` lines 88-118).  `BlockProducer` waits
until shutdown or free space, fails with `BusShutdown` after a shutdown,
otherwise appends at the tail.  The drop policies fail fast on shutdown;
on a full queue `DropNewest` returns `QueueFull` without inserting and
`DropOldest` removes the head and appends the new element. -/
def EventQueue.push (cap : Nat) (bp : BackpressurePolicy) (e : E) (q : EventQueue E) :
    PushResult E :=
  match bp with
  | .BlockProducer =>
    if q.shutdown_ then .done q .BusShutdown
    else if q.queue_.length < cap then .done ⟨q.queue_ ++ [e], q.shutdown_⟩ .Success
    else .blocked
  | .DropNewest =>
    if q.shutdown_ then .done q .BusShutdown
    else if cap ≤ q.queue_.length then .done q .QueueFull
    else .done ⟨q.queue_ ++ [e], q.shutdown_⟩ .Success
  | .DropOldest =>
    if q.shutdown_ then .done q .BusShutdown
    else if cap ≤ q.queue_.length then .done ⟨q.queue_.tail ++ [e], q.shutdown_⟩ .Success
    else .done ⟨q.queue_ ++ [e], q.shutdown_⟩ .Success

/-- `EventQueue::pop` (`queue.h` lines 128-136): wait until shutdown or
non-empty; return `nullopt` once shut down and empty, otherwise the front
element. -/
def EventQueue.pop (q : EventQueue E) : PopResult E :=
  match q.queue_ with
  | [] => if q.shutdown_ then .eos else .blocked
  | e :: rest => .item e ⟨rest, q.shutdown_⟩

/-- `EventQueue::shutdown` (`queue.h` lines 148-151): set the flag, wake
all waiters. -/
def EventQueue.shutdownQueue (q : EventQueue E) : EventQueue E :=
  { q with shutdown_ := true }

/-- Push a list of events in order, threading the queue state; a blocked
push leaves the state unchanged (used only with non-blocking policies). -/
def EventQueue.pushAll (cap : Nat) (bp : BackpressurePolicy) (es : List E)
    (q : EventQueue E) : EventQueue E :=
  es.foldl
    (fun q e =>
      match EventQueue.push cap bp e q with
      | .done q' _ => q'
      | .blocked => q)
    q

/-- A type-erased handler wrapper (`bus.h` `HandlerWrapper<EventType, Handler>`):
it remembers the event type it was instantiated for (`tag`) and whether the
wrapped user callable raises an exception when invoked (`throws_`). -/
structure HandlerW where
  tag : Nat
  throws_ : Bool
deriving DecidableEq, Repr

/-- A wrapped event (`Event<EventTypes...>` of `event.h`) as published:
the concrete event type's tag plus its payload.  `publish` always wraps a
concrete event value, never the `std::monostate` default. -/
structure Ev where
  tag : Nat
  payload : Nat
deriving DecidableEq, Repr

/-- Insert an element at position `n` of a list (clamped to the end):
the position at which an unordered container happens to place a new node
in its iteration order. -/
def insertAt : Nat → α → List α → List α
  | 0, a, l => a :: l
  | _ + 1, a, [] => [a]
  | n + 1, a, x :: l => x :: insertAt n a l

/-- State of an `EventBus` (`bus.h` lines 394-403): the queue, the
type-indexed handler registry `handlers_` (per type, an unordered map from
subscription id to wrapper, modelled in iteration order), the id-to-type
index `subscription_map_`, the id counter `next_id_` and the `shutdown_`
flag.  The dispatcher holds no state relevant to the claims. -/
structure EventBus where
  queue_ : EventQueue Ev
  handlers_ : Nat → List (Nat × HandlerW)
  subscription_map_ : Nat → Option Nat
  next_id_ : Nat
  shutdown_ : Bool

/-- The freshly constructed bus (`bus.h` lines 96-100): empty registry,
empty queue, `next_id_ = 0`, not shut down. -/
def EventBus.init : EventBus :=
  { queue_ := ⟨[], false⟩
    handlers_ := fun _ => []
    subscription_map_ := fun _ => none
    next_id_ := 0
    shutdown_ := false }

/-- `EventBus::subscribe<EventType>` (`bus.h` lines 156-170).  Returns the
invalid handle (`none`) without touching any state if the bus is shut
down; otherwise takes the next id, stores the wrapper under
`(type_index, id)` — at iteration-order position `pos`, which the
unordered container chooses — records `id ↦ type_index`, and returns a
handle carrying the deregistration closure's id.  `th` is whether the
subscribed callable throws when invoked. -/
def EventBus.subscribe (b : EventBus) (t : Nat) (th : Bool) (pos : Nat) :
    EventBus × Option Nat :=
  if b.shutdown_ then (b, none)
  else
    let id := b.next_id_
    ({ b with
        next_id_ := id + 1
        handlers_ := fun t' =>
          if t' = t then insertAt pos (id, ⟨t, th⟩) (b.handlers_ t) else b.handlers_ t'
        subscription_map_ := fun i => if i = id then some t else b.subscription_map_ i },
      some id)

/-- `EventBus::unsubscribe` (`bus.h` lines 299-315): look the id up in
`subscription_map_`; if present, erase the id's entry from that type's
handler map and the id from `subscription_map_`, returning `true`;
otherwise return `false` and change nothing.  (`unsubscribe_internal`,
lines 341-355, is the same mutation without the returned Bool.) -/
def EventBus.unsubscribe (b : EventBus) (id : Nat) : EventBus × Bool :=
  match b.subscription_map_ id with
  | some t =>
    ({ b with
        handlers_ := fun t' =>
          if t' = t then (b.handlers_ t).filter (fun p => p.1 != id) else b.handlers_ t'
        subscription_map_ := fun i => if i = id then none else b.subscription_map_ i },
      true)
  | none => (b, false)

/-- `EventBus::shutdown` (`bus.h` lines 257-265): set the flag and shut the
queue down (the dispatcher shutdown carries no modelled state). -/
def EventBus.shutdownBus (b : EventBus) : EventBus :=
  { b with shutdown_ := true, queue_ := b.queue_.shutdownQueue }

/-- `EventBus::active` (`bus.h` line 277). -/
def EventBus.active (b : EventBus) : Bool := !b.shutdown_

/-- The synchronous handler sweep of `publish` (`bus.h` lines 213-226)
together with the guard inside `HandlerWrapper::call` (lines 329-338):
walk the handler map of the event's type in iteration order and invoke
each wrapper; a wrapper only runs the user callable if its event type
matches the active variant.  Returns the invoked entries in order and
whether the sweep completed normally (`false` once an invoked callable
throws: the inline path has no try/catch, so the exception propagates and
the remaining handlers are skipped). -/
def sweep (t : Nat) : List (Nat × HandlerW) → List (Nat × HandlerW) × Bool
  | [] => ([], true)
  | (i, h) :: rest =>
    if h.tag = t then
      if h.throws_ then ([(i, h)], false)
      else
        let r := sweep t rest
        ((i, h) :: r.1, r.2)
    else sweep t rest

/-- The `Synchronous` branch of `EventBus::publish` (`bus.h` lines
202-228): fail fast with `BusShutdown` after shutdown; otherwise visit the
wrapped event, look up the handlers registered for its concrete type and
invoke each in the map's iteration order, then return `Success`.  The
result is the bus state after the call (the synchronous path mutates
nothing), the returned code (`none` when a handler's exception propagates
out of `publish`), and the invoked entries in invocation order. -/
def EventBus.publishSync (b : EventBus) (e : Ev) :
    EventBus × Option ErrorCode × List (Nat × HandlerW) :=
  if b.shutdown_ then (b, some .BusShutdown, [])
  else
    let r := sweep e.tag (b.handlers_ e.tag)
    (b, if r.2 then some .Success else none, r.1)

/-- The `Asynchronous` branch of `EventBus::publish` (`bus.h` lines
202-205 and 229-240): fail fast with `BusShutdown` after shutdown;
otherwise push the wrapped event, propagating a non-`Success` push result,
and on success schedule a drain unit on the dispatcher and return
`Success` immediately.  `none` models a producer blocked inside `push`. -/
def EventBus.publishAsync (cap : Nat) (bp : BackpressurePolicy) (b : EventBus) (e : Ev) :
    EventBus × Option ErrorCode :=
  if b.shutdown_ then (b, some .BusShutdown)
  else
    match EventQueue.push cap bp e b.queue_ with
    | .done q' ec => ({ b with queue_ := q' }, some ec)
    | .blocked => (b, none)

/-- One event's handler treatment in `EventBus::process_events` (`bus.h`
lines 361-390): copy the non-null handlers of the event's type under the
lock, then invoke each copied wrapper; the wrapper's internal guard makes
the user callable run exactly when the tags match, and each invocation is
wrapped in try/catch, so a throwing handler is logged and the loop over
the copy continues. -/
def invokedOf (b : EventBus) (e : Ev) : List (Nat × HandlerW) :=
  (b.handlers_ e.tag).filter (fun p => p.2.tag == e.tag)

/-- The drain loop of `EventBus::process_events` (`bus.h` lines 357-392),
with fuel equal to the number of queued events: repeatedly pop; stop on
end-of-stream (or when an empty, live queue would block the worker);
for each popped event invoke the copied matching handlers, catching and
logging each handler's exception.  Returns the final bus state, the
invoked entries in order, and the logged (throwing) entries in order. -/
def drainLoop : Nat → EventBus → EventBus × List (Nat × HandlerW) × List (Nat × HandlerW)
  | 0, b => (b, [], [])
  | fuel + 1, b =>
    match b.queue_.pop with
    | .eos => (b, [], [])
    | .blocked => (b, [], [])
    | .item e q' =>
      let inv := invokedOf b e
      let lg := inv.filter (fun p => p.2.throws_)
      let r := drainLoop fuel { b with queue_ := q' }
      (r.1, inv ++ r.2.1, lg ++ r.2.2)

/-- Run the drain unit until the queue is exhausted (the loop either meets
end-of-stream or would block once the queue is empty, having processed
every queued event). -/
def EventBus.drain (b : EventBus) : EventBus × List (Nat × HandlerW) × List (Nat × HandlerW) :=
  drainLoop b.queue_.queue_.length b

/-- The registry operations of claim C8: `subscribe`, manual
`unsubscribe`, and the handle-triggered `unsubscribe_internal` (the same
registry mutation as `unsubscribe`). -/
inductive BusOp where
  | sub (t : Nat) (th : Bool) (pos : Nat)
  | unsub (id : Nat)
  | unsubInternal (id : Nat)

/-- Apply one registry operation. -/
def applyOp (b : EventBus) : BusOp → EventBus
  | .sub t th pos => (b.subscribe t th pos).1
  | .unsub id => (b.unsubscribe id).1
  | .unsubInternal id => (b.unsubscribe id).1

/-- The bus state reached from a fresh bus by a sequence of registry
operations. -/
def execOps (ops : List BusOp) : EventBus :=
  ops.foldl applyOp EventBus.init

/-- Subscribe a whole list of non-throwing handlers for type `t`, one
`subscribe` call per list element; each element is the iteration-order
position the unordered container picks for that insertion. -/
def subscribeAll (b : EventBus) (t : Nat) (ps : List Nat) : EventBus :=
  ps.foldl (fun b pos => (b.subscribe t false pos).1) b

/-- The ids `s, s+1, …, s+n-1` in increasing order. -/
def idRange (s : Nat) : Nat → List Nat
  | 0 => []
  | n + 1 => s :: idRange (s + 1) n

lemma pushAll_nil (cap : Nat) (bp : BackpressurePolicy) (q : EventQueue E) :
    EventQueue.pushAll cap bp [] q = q := rfl

lemma pushAll_cons (cap : Nat) (bp : BackpressurePolicy) (e : E) (es : List E)
    (q : EventQueue E) :
    EventQueue.pushAll cap bp (e :: es) q =
      EventQueue.pushAll cap bp es
        (match EventQueue.push cap bp e q with
         | .done q' _ => q'
         | .blocked => q) := rfl

/-- While a `DropOldest` queue has room for all pushed elements, `pushAll`
appends them in order. -/
lemma pushAll_below (cap : Nat) :
    ∀ (es : List E) (q : EventQueue E), q.shutdown_ = false →
      q.queue_.length + es.length ≤ cap →
      EventQueue.pushAll cap .DropOldest es q = ⟨q.queue_ ++ es, false⟩ := by
  intro es
  induction es with
  | nil =>
    intro q hs _
    cases q with
    | mk l f => simp_all [pushAll_nil]
  | cons e es ih =>
    intro q hs hlen
    have hlt : ¬ cap ≤ q.queue_.length := by
      simp only [List.length_cons] at hlen
      omega
    rw [pushAll_cons]
    simp only [EventQueue.push, hs, if_false, Bool.false_eq_true, hlt, if_neg hlt]
    rw [ih ⟨q.queue_ ++ [e], false⟩ rfl
      (by simp only [List.length_append, List.length_cons, List.length_nil] at hlen ⊢; omega)]
    simp

/-- Pushing onto a full `DropOldest` queue evicts one head per push: after
pushing `es`, the contents are the old contents followed by `es`, with the
first `es.length` elements dropped. -/
lemma pushAll_full (N : Nat) :
    ∀ (es : List E) (q : EventQueue E), 0 < N → q.shutdown_ = false →
      q.queue_.length = N →
      EventQueue.pushAll N .DropOldest es q = ⟨(q.queue_ ++ es).drop es.length, false⟩ := by
  intro es
  induction es with
  | nil =>
    intro q _ hs _
    cases q with
    | mk l f => simp_all [pushAll_nil]
  | cons e es ih =>
    intro q hN hs hlen
    have hge : N ≤ q.queue_.length := le_of_eq hlen.symm
    rw [pushAll_cons]
    simp only [EventQueue.push, hs, Bool.false_eq_true, if_false, if_pos hge]
    obtain ⟨x, l, hq⟩ : ∃ x l, q.queue_ = x :: l := by
      cases hq : q.queue_ with
      | nil => rw [hq] at hlen; simp at hlen; omega
      | cons x l => exact ⟨x, l, rfl⟩
    rw [hq]
    have hlen' : l.length + 1 = N := by rw [hq] at hlen; simpa using hlen
    rw [show (x :: l).tail = l from rfl]
    rw [ih ⟨l ++ [e], false⟩ hN rfl (by simp; omega)]
    simp [List.drop_succ_cons]

/-- C5: on a full bounded(N) `DropOldest` queue that is not shut down,
`push` removes the head, appends the new element at the tail and returns
`Success`; pushing N+1 events into an initially empty such queue leaves
exactly the last N of them, the oldest having been evicted. -/
theorem C5_dropOldest_evicts (E : Type) (N : Nat) (e : E) (q : EventQueue E) (L : List E)
    (hN : 0 < N) (hfull : q.queue_.length = N) (hs : q.shutdown_ = false)
    (hL : L.length = N + 1) :
    EventQueue.push N .DropOldest e q = .done ⟨q.queue_.tail ++ [e], false⟩ .Success ∧
    EventQueue.pushAll N .DropOldest L ⟨[], false⟩ = ⟨L.drop 1, false⟩ := by
  constructor
  · have hge : N ≤ q.queue_.length := le_of_eq hfull.symm
    simp [EventQueue.push, hs, if_pos hge]
  · have htd : L.take N ++ L.drop N = L := List.take_append_drop N L
    have hTlen : (L.take N).length = N := by simp [hL]
    have hDlen : (L.drop N).length = 1 := by simp [hL]
    have hsplit : EventQueue.pushAll N .DropOldest L ⟨[], false⟩
        = EventQueue.pushAll N .DropOldest (L.drop N)
            (EventQueue.pushAll N .DropOldest (L.take N) ⟨[], false⟩) := by
      conv_lhs => rw [← htd]
      unfold EventQueue.pushAll
      rw [List.foldl_append]
    have hfill : EventQueue.pushAll N .DropOldest (L.take N) ⟨[], false⟩
        = ⟨L.take N, false⟩ := by
      have h := pushAll_below (E := E) N (L.take N) ⟨[], false⟩ rfl (by simp [hTlen])
      simpa using h
    rw [hsplit, hfill, pushAll_full N (L.drop N) ⟨L.take N, false⟩ hN rfl hTlen, htd, hDlen]

/-- Witness for C5 at N = 2: a full queue `[1, 2]` evicts `1` when `3` is
pushed, and pushing `[10, 20, 30]` into an empty bounded(2) queue leaves
`[20, 30]`. -/
theorem C5_dropOldest_evicts_witness :
    EventQueue.push 2 .DropOldest 3 (⟨[1, 2], false⟩ : EventQueue Nat) =
      .done ⟨[2, 3], false⟩ .Success ∧
    EventQueue.pushAll 2 .DropOldest [10, 20, 30] (⟨[], false⟩ : EventQueue Nat) =
      ⟨[20, 30], false⟩ :=
  C5_dropOldest_evicts Nat 2 3 ⟨[1, 2], false⟩ [10, 20, 30]
    (by decide) (by decide) (by decide) (by decide)

/-- C6: `pop` returns the head element (FIFO) whenever the queue is
non-empty — also after shutdown, so remaining elements are drained in FIFO
order — and returns the end-of-stream marker once shut down and empty. -/
theorem C6_pop_fifo_and_eos (E : Type) (q r : EventQueue E) (e : E) (rest : List E)
    (hq : q.queue_ = e :: rest) (hr1 : r.shutdown_ = true) (hr2 : r.queue_ = []) :
    q.pop = .item e ⟨rest, q.shutdown_⟩ ∧ r.pop = .eos := by
  constructor
  · simp [EventQueue.pop, hq]
  · simp [EventQueue.pop, hr2, hr1]

/-- Witness for C6: popping `⟨[5, 7], true⟩` yields the head `5` and the
remaining queue `[7]`; popping a shut-down empty queue yields the
end-of-stream marker. -/
theorem C6_pop_fifo_and_eos_witness :
    (⟨[5, 7], true⟩ : EventQueue Nat).pop = .item 5 ⟨[7], true⟩ ∧
    (⟨[], true⟩ : EventQueue Nat).pop = .eos :=
  C6_pop_fifo_and_eos Nat ⟨[5, 7], true⟩ ⟨[], true⟩ 5 [7] rfl rfl rfl

/-- C10: the `Synchronous` branch of `publish` leaves the entire bus —
in particular the queue, under every queue/backpressure configuration —
unchanged, and its outcome is `Success`, `BusShutdown`, or a propagated
handler exception (no returned code); it can never return `QueueFull`. -/
theorem C10_sync_publish_frame (b : EventBus) (e : Ev) :
    (b.publishSync e).1 = b ∧
    (b.publishSync e).1.queue_ = b.queue_ ∧
    ((b.publishSync e).2.1 = some .Success ∨
      (b.publishSync e).2.1 = some .BusShutdown ∨
      (b.publishSync e).2.1 = none) := by
  unfold EventBus.publishSync
  by_cases h : b.shutdown_
  · simp [h]
  · by_cases hc : (sweep e.tag (b.handlers_ e.tag)).2
    · simp [h, hc]
    · simp [h, hc]

/-- C2: after `shutdown()`, `publish` (both strategies) returns
`BusShutdown` delivering to no handler and leaving the bus untouched,
`subscribe` returns the invalid handle without registering anything,
`active()` is false, and no registry operation resets the flag. -/
theorem C2_shutdown_finality (b : EventBus) :
    (∀ e, (b.shutdownBus.publishSync e) = (b.shutdownBus, some .BusShutdown, [])) ∧
    (∀ cap bp e, EventBus.publishAsync cap bp b.shutdownBus e =
      (b.shutdownBus, some .BusShutdown)) ∧
    (∀ t th pos, b.shutdownBus.subscribe t th pos = (b.shutdownBus, none)) ∧
    b.shutdownBus.active = false ∧
    (∀ op, (applyOp b.shutdownBus op).shutdown_ = true) := by
  refine ⟨?_, ?_, ?_, ?_, ?_⟩
  · intro e; simp [EventBus.publishSync, EventBus.shutdownBus]
  · intro cap bp e; simp [EventBus.publishAsync, EventBus.shutdownBus]
  · intro t th pos; simp [EventBus.subscribe, EventBus.shutdownBus]
  · simp [EventBus.active, EventBus.shutdownBus]
  · intro op
    cases op with
    | sub t th pos => simp [applyOp, EventBus.subscribe, EventBus.shutdownBus]
    | unsub id =>
      cases h : b.subscription_map_ id <;>
        simp [applyOp, EventBus.unsubscribe, h, EventBus.shutdownBus]
    | unsubInternal id =>
      cases h : b.subscription_map_ id <;>
        simp [applyOp, EventBus.unsubscribe, h, EventBus.shutdownBus]

/-- C7: `unsubscribe(id)` succeeds exactly when a registry entry for `id`
exists, removing exactly that entry (other ids, other types, and all other
bus fields untouched); with an unknown id it is a no-op returning `false`,
and a second call with the same id is a no-op returning `false`. -/
theorem C7_unsubscribe_iff (b b' : EventBus) (id id' t : Nat)
    (hsome : b.subscription_map_ id = some t)
    (hnone : b'.subscription_map_ id' = none) :
    ((b.unsubscribe id).2 = true ↔ ¬ b.subscription_map_ id = none) ∧
    (b.unsubscribe id).1.subscription_map_ id = none ∧
    (∀ j, j ≠ id → (b.unsubscribe id).1.subscription_map_ j = b.subscription_map_ j) ∧
    (b.unsubscribe id).1.handlers_ t = (b.handlers_ t).filter (fun p => p.1 != id) ∧
    (∀ u, u ≠ t → (b.unsubscribe id).1.handlers_ u = b.handlers_ u) ∧
    (b.unsubscribe id).1.queue_ = b.queue_ ∧
    (b.unsubscribe id).1.next_id_ = b.next_id_ ∧
    (b.unsubscribe id).1.shutdown_ = b.shutdown_ ∧
    ((b.unsubscribe id).1.unsubscribe id = ((b.unsubscribe id).1, false)) ∧
    (b'.unsubscribe id' = (b', false)) := by
  refine ⟨?_, ?_, ?_, ?_, ?_, ?_, ?_, ?_, ?_, ?_⟩ <;>
    simp [EventBus.unsubscribe, hsome, hnone]
  · intro j hj; simp [hj]
  · intro u hu; simp [hu]

/-- Witness for C7 on a one-subscription bus: removing subscription `0`
succeeds and empties the registry; a second call and a call with an
unknown id on a fresh bus are no-ops returning `false`. -/
theorem C7_unsubscribe_iff_witness :
    (((EventBus.init.subscribe 3 false 0).1.unsubscribe 0).2 = true ↔
      ¬ (EventBus.init.subscribe 3 false 0).1.subscription_map_ 0 = none) ∧
    ((EventBus.init.subscribe 3 false 0).1.unsubscribe 0).1.subscription_map_ 0 = none ∧
    (∀ j, j ≠ 0 →
      (((EventBus.init.subscribe 3 false 0).1.unsubscribe 0).1.subscription_map_ j =
        (EventBus.init.subscribe 3 false 0).1.subscription_map_ j)) ∧
    ((EventBus.init.subscribe 3 false 0).1.unsubscribe 0).1.handlers_ 3 =
      ((EventBus.init.subscribe 3 false 0).1.handlers_ 3).filter (fun p => p.1 != 0) ∧
    (∀ u, u ≠ 3 →
      (((EventBus.init.subscribe 3 false 0).1.unsubscribe 0).1.handlers_ u =
        (EventBus.init.subscribe 3 false 0).1.handlers_ u)) ∧
    ((EventBus.init.subscribe 3 false 0).1.unsubscribe 0).1.queue_ =
      (EventBus.init.subscribe 3 false 0).1.queue_ ∧
    ((EventBus.init.subscribe 3 false 0).1.unsubscribe 0).1.next_id_ =
      (EventBus.init.subscribe 3 false 0).1.next_id_ ∧
    ((EventBus.init.subscribe 3 false 0).1.unsubscribe 0).1.shutdown_ =
      (EventBus.init.subscribe 3 false 0).1.shutdown_ ∧
    ((((EventBus.init.subscribe 3 false 0).1.unsubscribe 0).1.unsubscribe 0) =
      (((EventBus.init.subscribe 3 false 0).1.unsubscribe 0).1, false)) ∧
    (EventBus.init.unsubscribe 5 = (EventBus.init, false)) :=
  C7_unsubscribe_iff (EventBus.init.subscribe 3 false 0).1 EventBus.init 0 5 3
    (by simp [EventBus.subscribe, EventBus.init]) rfl

lemma insertAt_perm : ∀ (n : Nat) (a : α) (l : List α), (insertAt n a l).Perm (a :: l)
  | 0, _, _ => List.Perm.refl _
  | _ + 1, _, [] => List.Perm.refl _
  | n + 1, a, x :: l =>
    ((insertAt_perm n a l).cons x).trans (List.Perm.swap a x l)

lemma mem_fst_insertAt (pos i j : Nat) (h : HandlerW) (l : List (Nat × HandlerW)) :
    i ∈ (insertAt pos (j, h) l).map Prod.fst ↔ i = j ∨ i ∈ l.map Prod.fst := by
  rw [((insertAt_perm pos (j, h) l).map Prod.fst).mem_iff]
  simp

lemma mem_fst_filter_ne (i id : Nat) (l : List (Nat × HandlerW)) :
    i ∈ ((l.filter (fun p => p.1 != id)).map Prod.fst) ↔
      i ∈ l.map Prod.fst ∧ ¬ i = id := by
  simp only [List.mem_map, List.mem_filter, bne_iff_ne, ne_eq]
  constructor
  · rintro ⟨p, ⟨hp, hne⟩, rfl⟩
    exact ⟨⟨p, hp, rfl⟩, hne⟩
  · rintro ⟨⟨p, hp, rfl⟩, hne⟩
    exact ⟨p, ⟨hp, hne⟩, rfl⟩

/-- The registry invariant of claim C8: an id is recorded in the id→type
index `subscription_map_` exactly when a handler entry for that id exists
under the corresponding type in `handlers_`; additionally, each per-type
handler map has no duplicate ids and every registered id is below
`next_id_` (ids are never reused). -/
def RegInv (b : EventBus) : Prop :=
  (∀ id t, b.subscription_map_ id = some t ↔ id ∈ (b.handlers_ t).map Prod.fst) ∧
  (∀ t, ((b.handlers_ t).map Prod.fst).Nodup) ∧
  (∀ t id, id ∈ (b.handlers_ t).map Prod.fst → id < b.next_id_)

lemma RegInv_init : RegInv EventBus.init := by
  refine ⟨?_, ?_, ?_⟩ <;> simp [EventBus.init]

lemma RegInv_subscribe (b : EventBus) (hInv : RegInv b) (t : Nat) (th : Bool) (pos : Nat) :
    RegInv (b.subscribe t th pos).1 := by
  obtain ⟨ha, hb, hc⟩ := hInv
  by_cases hs : b.shutdown_
  · simpa [EventBus.subscribe, hs] using ⟨ha, hb, hc⟩
  · have hfresh : ∀ t', b.next_id_ ∉ (b.handlers_ t').map Prod.fst := by
      intro t' hmem
      exact absurd (hc t' _ hmem) (lt_irrefl _)
    simp only [EventBus.subscribe, hs, Bool.false_eq_true, if_false]
    refine ⟨?_, ?_, ?_⟩
    · intro id u
      by_cases hid : id = b.next_id_ <;> by_cases hu : u = t <;>
        simp only [hid, hu, if_pos, if_neg, ite_true, ite_false, mem_fst_insertAt]
      · simp
      · simp only [Option.some.injEq, true_or, iff_true]
        constructor
        · intro h; exact absurd h.symm hu
        · intro hmem; exact absurd (hc u _ hmem) (lt_irrefl _)
      · simp only [hid, false_or]
        subst hu
        exact ha id u
      · exact ha id u
    · intro u
      by_cases hu : u = t
      · subst hu
        simp only [ite_true]
        rw [((insertAt_perm pos (b.next_id_, (⟨u, th⟩ : HandlerW)) (b.handlers_ u)).map
          Prod.fst).nodup_iff]
        exact List.nodup_cons.mpr ⟨hfresh u, hb u⟩
      · simpa [hu] using hb u
    · intro u id hmem
      by_cases hu : u = t
      · simp only [hu, ite_true, mem_fst_insertAt] at hmem
        rcases hmem with rfl | hmem
        · exact Nat.lt_succ_self _
        · exact Nat.lt_succ_of_lt (hc t _ hmem)
      · simp only [hu, ite_false] at hmem
        exact Nat.lt_succ_of_lt (hc u _ hmem)

lemma RegInv_unsubscribe (b : EventBus) (hInv : RegInv b) (id : Nat) :
    RegInv (b.unsubscribe id).1 := by
  obtain ⟨ha, hb, hc⟩ := hInv
  cases hm : b.subscription_map_ id with
  | none => simpa [EventBus.unsubscribe, hm] using ⟨ha, hb, hc⟩
  | some t =>
    simp only [EventBus.unsubscribe, hm]
    refine ⟨?_, ?_, ?_⟩
    · intro j u
      by_cases hj : j = id <;> by_cases hu : u = t <;>
        simp only [hj, hu, ite_true, ite_false, mem_fst_filter_ne]
      · simp
      · simp only [reduceCtorEq, false_iff, not_and, Decidable.not_not]
        intro hmem
        have h2 := (ha id u).mpr hmem
        rw [hm] at h2
        exact absurd (Option.some.inj h2).symm hu
      · subst hu
        simp only [hj, not_false_iff, and_true]
        exact ha j u
      · exact ha j u
    · intro u
      by_cases hu : u = t
      · subst hu
        simp only [ite_true]
        exact (hb u).sublist (((b.handlers_ u).filter_sublist).map Prod.fst)
      · simpa [hu] using hb u
    · intro u j hmem
      by_cases hu : u = t
      · subst hu
        simp only [ite_true, mem_fst_filter_ne] at hmem
        exact hc u j hmem.1
      · simp only [hu, ite_false] at hmem
        exact hc u j hmem

lemma RegInv_applyOp (b : EventBus) (hInv : RegInv b) (op : BusOp) :
    RegInv (applyOp b op) := by
  cases op with
  | sub t th pos => exact RegInv_subscribe b hInv t th pos
  | unsub id => exact RegInv_unsubscribe b hInv id
  | unsubInternal id => exact RegInv_unsubscribe b hInv id

lemma RegInv_foldl : ∀ (ops : List BusOp) (b : EventBus), RegInv b →
    RegInv (ops.foldl applyOp b)
  | [], _, hInv => hInv
  | op :: ops, b, hInv => RegInv_foldl ops (applyOp b op) (RegInv_applyOp b hInv op)

/-- C8: in every bus state reachable by any sequence of `subscribe`,
manual `unsubscribe` and handle-triggered `unsubscribe_internal`
operations, an id is present in the id→type index iff a handler entry for
it exists under the corresponding type (and per-type handler maps stay
duplicate-free with all ids below `next_id_`): each operation inserts into
both maps or removes from both. -/
theorem C8_registry_invariant (ops : List BusOp) : RegInv (execOps ops) :=
  RegInv_foldl ops EventBus.init RegInv_init

lemma subscribeAll_cons (b : EventBus) (t pos : Nat) (ps : List Nat) :
    subscribeAll b t (pos :: ps) = subscribeAll (b.subscribe t false pos).1 t ps := rfl

/-- Subscribing `ps.length` non-throwing handlers for `t` on a live bus
keeps the bus live and makes the type-`t` handler map a permutation of
the old entries plus one fresh-id entry per call, whatever iteration-order
positions the unordered container picked. -/
lemma subscribeAll_spec (t : Nat) : ∀ (ps : List Nat) (b : EventBus),
    b.shutdown_ = false →
    (subscribeAll b t ps).shutdown_ = false ∧
    ((subscribeAll b t ps).handlers_ t).Perm
      (b.handlers_ t ++ (idRange b.next_id_ ps.length).map (fun i => (i, ⟨t, false⟩))) := by
  intro ps
  induction ps with
  | nil =>
    intro b hs
    exact ⟨hs, by simp [subscribeAll, idRange]⟩
  | cons pos ps ih =>
    intro b hs
    rw [subscribeAll_cons]
    have hb' : (b.subscribe t false pos).1.shutdown_ = false := by
      simp [EventBus.subscribe, hs]
    obtain ⟨hflag, hperm⟩ := ih (b.subscribe t false pos).1 hb'
    refine ⟨hflag, ?_⟩
    have hh : (b.subscribe t false pos).1.handlers_ t =
        insertAt pos (b.next_id_, ⟨t, false⟩) (b.handlers_ t) := by
      simp [EventBus.subscribe, hs]
    have hn : (b.subscribe t false pos).1.next_id_ = b.next_id_ + 1 := by
      simp [EventBus.subscribe, hs]
    rw [hh, hn] at hperm
    refine hperm.trans ?_
    refine (List.Perm.append_right _ (insertAt_perm pos (b.next_id_, ⟨t, false⟩)
      (b.handlers_ t))).trans ?_
    simp only [List.cons_append, idRange, List.map_cons]
    exact (List.perm_middle).symm

/-- If every entry of the handler map matches the event's type and none
throws, the synchronous sweep invokes exactly the whole map, in iteration
order, and completes. -/
lemma sweep_all_match (t : Nat) : ∀ l : List (Nat × HandlerW),
    (∀ p ∈ l, p.2.tag = t ∧ p.2.throws_ = false) → sweep t l = (l, true) := by
  intro l
  induction l with
  | nil => intro _; rfl
  | cons p rest ih =>
    intro hall
    obtain ⟨htag, hth⟩ := hall p (List.mem_cons_self p rest)
    obtain ⟨i, h⟩ := p
    simp only at htag hth
    simp [sweep, htag, hth, ih fun q hq => hall q (List.mem_cons_of_mem _ hq)]

/-- C1 (amended): on a `Synchronous` bus, after N `subscribe` calls for
type `t` registering non-throwing handlers, one `publish` of a `t` event
invokes each of the N handlers exactly once — the invocation list is a
permutation of the N registered `(id, handler)` entries — and all
invocations complete before `publish` returns `Success`; the order is the
unordered handler map's iteration order, not necessarily the subscription
order. -/
theorem C1_inline_delivery_amended (t v : Nat) (ps : List Nat) :
    ((subscribeAll EventBus.init t ps).publishSync ⟨t, v⟩).2.1 = some .Success ∧
    ((subscribeAll EventBus.init t ps).publishSync ⟨t, v⟩).2.2.Perm
      ((idRange 0 ps.length).map (fun i => (i, ⟨t, false⟩))) := by
  obtain ⟨hflag, hperm⟩ := subscribeAll_spec t ps EventBus.init rfl
  have hperm' : ((subscribeAll EventBus.init t ps).handlers_ t).Perm
      ((idRange 0 ps.length).map (fun i => (i, ⟨t, false⟩))) := by
    simpa [EventBus.init] using hperm
  have hall : ∀ p ∈ (subscribeAll EventBus.init t ps).handlers_ t,
      (p : Nat × HandlerW).2.tag = t ∧ p.2.throws_ = false := by
    intro p hp
    have hp' := hperm'.mem_iff.mp hp
    simp only [List.mem_map] at hp'
    obtain ⟨i, _, rfl⟩ := hp'
    exact ⟨rfl, rfl⟩
  have hsweep := sweep_all_match t _ hall
  constructor
  · simp [EventBus.publishSync, hflag, hsweep]
  · simpa [EventBus.publishSync, hflag, hsweep] using hperm'

/-- Counterexample to C1 as stated: two subscriptions for type 0 (the
unordered map placing each new node at the head of its iteration order,
as libstdc++ does for fresh buckets) followed by one publish invoke the
handlers as `[(1, _), (0, _)]` — the reverse of subscription order
`[(0, _), (1, _)]`. -/
theorem C1_inline_delivery_cex :
    ((subscribeAll EventBus.init 0 [0, 0]).publishSync ⟨0, 5⟩).2.2 =
      [(1, ⟨0, false⟩), (0, ⟨0, false⟩)] ∧
    (((subscribeAll EventBus.init 0 [0, 0]).publishSync ⟨0, 5⟩).2.2 ==
      [(0, (⟨0, false⟩ : HandlerW)), (1, ⟨0, false⟩)]) = false := by
  constructor
  · rfl
  · rfl

/-- The drain loop processes every queued event in FIFO order: the
invocations are the concatenation, per queued event, of the copied
matching handlers; the logged failures are exactly the throwing ones among
them; the queue ends empty and the registry is untouched.  A handler that
throws is caught and logged without stopping its event's remaining
handlers or the loop. -/
lemma drainLoop_spec : ∀ (l : List Ev) (b : EventBus), b.queue_.queue_ = l →
    drainLoop l.length b =
      ({ b with queue_ := ⟨[], b.queue_.shutdown_⟩ },
        (l.map (invokedOf b)).flatten,
        (l.map (fun e => (invokedOf b e).filter (fun p => p.2.throws_))).flatten) := by
  intro l
  induction l with
  | nil =>
    intro b hq
    cases b with
    | mk q h s n f =>
      cases q with
      | mk ql qf =>
        simp only at hq
        subst hq
        simp [drainLoop]
  | cons e rest ih =>
    intro b hq
    have hpop : b.queue_.pop = .item e ⟨rest, b.queue_.shutdown_⟩ := by
      simp [EventQueue.pop, hq]
    have hrec := ih { b with queue_ := ⟨rest, b.queue_.shutdown_⟩ } rfl
    simp only [List.length_cons, drainLoop, hpop, hrec]
    have hinv : invokedOf { b with queue_ := ⟨rest, b.queue_.shutdown_⟩ } = invokedOf b := rfl
    simp [hinv]

/-- C4: in the deferred drain path a throwing handler is caught and logged
at the point of invocation and never rethrown: for every bus state, the
drain invokes, for each queued event in order, all copied matching
handlers — throwing ones included — logs exactly the throwing ones, and
empties the queue without touching the registry; concretely, with 5
handlers for one type of which handlers 2 and 4 (ids 1 and 3) throw and
two queued events, handlers 1, 3, 5 (ids 0, 2, 4) are still invoked for
the first event and the loop continues to the second. -/
theorem C4_drain_fault_isolation :
    (∀ b : EventBus,
      (b.drain).2.1 = (b.queue_.queue_.map (invokedOf b)).flatten ∧
      (b.drain).2.2 = (b.queue_.queue_.map
        (fun e => (invokedOf b e).filter (fun p => p.2.throws_))).flatten ∧
      (b.drain).1.queue_.queue_ = [] ∧
      (b.drain).1.handlers_ = b.handlers_) ∧
    ((({ EventBus.init with
        handlers_ := fun u => if u = 0 then
          [(0, ⟨0, false⟩), (1, ⟨0, true⟩), (2, ⟨0, false⟩), (3, ⟨0, true⟩), (4, ⟨0, false⟩)]
          else []
        queue_ := ⟨[⟨0, 10⟩, ⟨0, 20⟩], false⟩ } : EventBus).drain).2.1 =
      [(0, ⟨0, false⟩), (1, ⟨0, true⟩), (2, ⟨0, false⟩), (3, ⟨0, true⟩), (4, ⟨0, false⟩),
        (0, ⟨0, false⟩), (1, ⟨0, true⟩), (2, ⟨0, false⟩), (3, ⟨0, true⟩), (4, ⟨0, false⟩)] ∧
     (({ EventBus.init with
        handlers_ := fun u => if u = 0 then
          [(0, ⟨0, false⟩), (1, ⟨0, true⟩), (2, ⟨0, false⟩), (3, ⟨0, true⟩), (4, ⟨0, false⟩)]
          else []
        queue_ := ⟨[⟨0, 10⟩, ⟨0, 20⟩], false⟩ } : EventBus).drain).2.2 =
      [(1, ⟨0, true⟩), (3, ⟨0, true⟩), (1, ⟨0, true⟩), (3, ⟨0, true⟩)]) := by
  constructor
  · intro b
    have h := drainLoop_spec b.queue_.queue_ b rfl
    refine ⟨?_, ?_, ?_, ?_⟩ <;> simp [EventBus.drain, h]
  · constructor <;> rfl

lemma sweep_mem (t : Nat) : ∀ (l : List (Nat × HandlerW)) (p : Nat × HandlerW),
    p ∈ (sweep t l).1 → p.2.tag = t := by
  intro l
  induction l with
  | nil => intro p hp; simp [sweep] at hp
  | cons q rest ih =>
    intro p hp
    obtain ⟨i, h⟩ := q
    by_cases ht : h.tag = t
    · by_cases hth : h.throws_
      · simp [sweep, ht, hth] at hp
        rw [hp]
        exact ht
      · simp only [sweep, ht, if_pos, ite_true, hth, Bool.false_eq_true, if_false,
          ite_false, List.mem_cons] at hp
        rcases hp with rfl | hp
        · exact ht
        · exact ih p hp
    · simp only [sweep, ht, ite_false] at hp
      exact ih p hp

lemma invokedOf_mem (b : EventBus) (e : Ev) (p : Nat × HandlerW)
    (hp : p ∈ invokedOf b e) : p.2.tag = e.tag := by
  simp only [invokedOf, List.mem_filter, beq_iff_eq] at hp
  exact hp.2

lemma publishAsync_queue_of_empty (cap : Nat) (bp : BackpressurePolicy) (b : EventBus)
    (ev : Ev) (hq : b.queue_.queue_ = []) :
    (EventBus.publishAsync cap bp b ev).1.queue_.queue_ = [] ∨
    (EventBus.publishAsync cap bp b ev).1.queue_.queue_ = [ev] := by
  unfold EventBus.publishAsync EventQueue.push
  by_cases hs : b.shutdown_ <;> cases bp <;> by_cases hqs : b.queue_.shutdown_ <;>
    simp [hs, hqs, hq] <;> split_ifs <;> simp [hq]

/-- C3: a handler subscribed for type `A` is never invoked when an event
of a different type `B` is published — under the inline strategy (the
publish-time sweep) and under the deferred strategy (push followed by the
dispatched drain unit). -/
theorem C3_type_safety (b : EventBus) (A B pay i cap : Nat) (h : HandlerW)
    (bp : BackpressurePolicy)
    (htag : h.tag = A) (hne : A ≠ B) (hq : b.queue_.queue_ = []) :
    (i, h) ∉ (b.publishSync ⟨B, pay⟩).2.2 ∧
    (i, h) ∉ ((EventBus.publishAsync cap bp b ⟨B, pay⟩).1.drain).2.1 := by
  constructor
  · intro hp
    by_cases hs : b.shutdown_
    · simp [EventBus.publishSync, hs] at hp
    · simp only [EventBus.publishSync, hs, Bool.false_eq_true, if_false] at hp
      have := sweep_mem (Ev.mk B pay).tag _ _ hp
      rw [htag] at this
      exact hne this
  · intro hp
    set b' := (EventBus.publishAsync cap bp b ⟨B, pay⟩).1 with hb'
    have hdrain := drainLoop_spec b'.queue_.queue_ b' rfl
    rcases publishAsync_queue_of_empty cap bp b ⟨B, pay⟩ hq with h0 | h1
    · rw [EventBus.drain, hdrain] at hp
      rw [h0] at hp
      simp at hp
    · rw [EventBus.drain, hdrain] at hp
      rw [h1] at hp
      simp only [List.map_cons, List.map_nil, List.flatten_cons, List.flatten_nil,
        List.append_nil] at hp
      have := invokedOf_mem b' ⟨B, pay⟩ (i, h) hp
      rw [htag] at this
      exact hne this

/-- Witness for C3: a handler for type 1 registered on a fresh bus is not
invoked when a type-2 event is published, on either path. -/
theorem C3_type_safety_witness :
    ((0 : Nat), (⟨1, false⟩ : HandlerW)) ∉
      (((EventBus.init.subscribe 1 false 0).1.publishSync ⟨2, 7⟩).2.2) ∧
    ((0 : Nat), (⟨1, false⟩ : HandlerW)) ∉
      ((EventBus.publishAsync 8 .BlockProducer (EventBus.init.subscribe 1 false 0).1
        ⟨2, 7⟩).1.drain).2.1 :=
  C3_type_safety (EventBus.init.subscribe 1 false 0).1 1 2 7 0 8 ⟨1, false⟩
    .BlockProducer rfl (by decide) rfl

/-- A `Subscription` handle (`subscription.h`): its `unsubscribe_func_`
slot, holding the id of the deregistration closure when bound and nothing
when unbound (`nullptr`). -/
abbrev Subscription := Option Nat

/-- `Subscription::unsubscribe` (`subscription.h` lines 118-123): invoke
the closure if present and clear the slot; the returned list records which
closures were invoked by the call. -/
def Subscription.release : Subscription → Subscription × List Nat
  | some c => (none, [c])
  | none => (none, [])

/-- The operations of a handle's lifetime (`subscription.h`): an explicit
`unsubscribe()` call, destruction, being the source of a move
(construction or assignment), and being the destination of a move
assignment from a handle in state `src`. -/
inductive SubOp where
  | unsubCall
  | dtor
  | movedFrom
  | assignRecv (src : Subscription)

/-- One lifetime step of a handle (`subscription.h` lines 71-97 and
118-123): `unsubscribe()` and the destructor release the closure;
a moved-from handle is left unbound with nothing invoked; move assignment
first releases the destination's own closure, then takes the source's. -/
def subStep : Subscription → SubOp → Subscription × List Nat
  | s, .unsubCall => s.release
  | s, .dtor => s.release
  | _, .movedFrom => (none, [])
  | s, .assignRecv src => (src, (s.release).2)

/-- Run a sequence of lifetime operations on a handle, collecting every
closure invocation in order. -/
def subRun : Subscription → List SubOp → Subscription × List Nat
  | s, [] => (s, [])
  | s, op :: ops =>
    let r := subStep s op
    let r2 := subRun r.1 ops
    (r2.1, r.2 ++ r2.2)

lemma subRun_count_le (c : Nat) : ∀ (ops : List SubOp) (s : Subscription),
    (∀ x, SubOp.assignRecv x ∈ ops → x ≠ some c) →
    ((subRun s ops).2.count c) ≤ (if s = some c then 1 else 0) := by
  intro ops
  induction ops with
  | nil =>
    intro s _
    simp [subRun]
  | cons op ops ih =>
    intro s hno
    have hno' : ∀ x, SubOp.assignRecv x ∈ ops → x ≠ some c := by
      intro x hx
      exact hno x (List.mem_cons_of_mem _ hx)
    have hrest := fun s' => ih s' hno'
    cases op with
    | unsubCall =>
      cases s with
      | none => simpa [subRun, subStep, Subscription.release] using hrest none
      | some d =>
        have h0 := hrest none
        simp only [reduceCtorEq, if_false, Nat.le_zero] at h0
        by_cases hdc : d = c <;>
          simp [subRun, subStep, Subscription.release, List.count_cons, hdc, h0]
    | dtor =>
      cases s with
      | none => simpa [subRun, subStep, Subscription.release] using hrest none
      | some d =>
        have h0 := hrest none
        simp only [reduceCtorEq, if_false, Nat.le_zero] at h0
        by_cases hdc : d = c <;>
          simp [subRun, subStep, Subscription.release, List.count_cons, hdc, h0]
    | movedFrom =>
      have h0 := hrest none
      simp only [reduceCtorEq, if_false, Nat.le_zero] at h0
      cases s <;> simp [subRun, subStep, h0]
    | assignRecv src =>
      have hsrc : src ≠ some c := hno src (List.mem_cons_self _ _)
      have h0 := hrest src
      rw [if_neg hsrc] at h0
      simp only [Nat.le_zero] at h0
      cases s with
      | none => simp [subRun, subStep, Subscription.release, h0]
      | some d =>
        by_cases hdc : d = c <;>
          simp [subRun, subStep, Subscription.release, List.count_cons, hdc, h0]

/-- C9: the deregistration closure owned by a handle runs at most once
over the handle's lifetime — releasing a bound handle (explicit
`unsubscribe()` or destruction) invokes its closure exactly once and
unbinds it, releasing an unbound handle is a no-op, moving from a handle
unbinds it without invoking anything, move-assigning into a bound handle
first invokes the destination's prior closure, and along any operation
sequence that does not re-introduce closure `c` by move assignment, `c`
is invoked at most once. -/
theorem C9_handle_release_once (c : Nat) (ops : List SubOp)
    (hno : ∀ x, SubOp.assignRecv x ∈ ops → x ≠ some c) :
    (∀ d : Nat, Subscription.release (some d) = (none, [d])) ∧
    Subscription.release (none : Subscription) = (none, []) ∧
    (∀ s : Subscription, subStep s .movedFrom = (none, [])) ∧
    (∀ (s : Subscription) (d : Nat), subStep (some d) (.assignRecv s) = (s, [d])) ∧
    (∀ s : Subscription, subStep none (.assignRecv s) = (s, [])) ∧
    ((subRun (some c) ops).2.count c ≤ 1) := by
  refine ⟨fun d => rfl, rfl, fun s => rfl, fun s d => rfl, fun s => rfl, ?_⟩
  have h := subRun_count_le c ops (some c) hno
  simpa using h

/-- Witness for C9: along the lifetime "unsubscribe, then destruct" of a
handle bound to closure 7, the closure runs at most once. -/
theorem C9_handle_release_once_witness :
    (∀ d : Nat, Subscription.release (some d) = (none, [d])) ∧
    Subscription.release (none : Subscription) = (none, []) ∧
    (∀ s : Subscription, subStep s .movedFrom = (none, [])) ∧
    (∀ (s : Subscription) (d : Nat), subStep (some d) (.assignRecv s) = (s, [d])) ∧
    (∀ s : Subscription, subStep none (.assignRecv s) = (s, [])) ∧
    ((subRun (some 7) [SubOp.unsubCall, SubOp.dtor]).2.count 7 ≤ 1) :=
  C9_handle_release_once 7 [SubOp.unsubCall, SubOp.dtor]
    (by intro x hx; simp at hx)
